import Mathlib

/-!
Verification development for the vue3-chat-uikit real-time chat client.

The definitions below are shallow embeddings of the TypeScript source:
JavaScript `Map` objects become insertion-ordered association lists,
`Array.prototype.sort` (stable per ECMA-262) becomes a stable insertion
sort, truthiness of strings/booleans is modelled explicitly, `Date`
values become integer epoch milliseconds, and thrown exceptions become
`Except` errors.
-/

set_option linter.unusedVariables false

/-! ## JavaScript value helpers -/

/-- Truthiness of a possibly-absent string: `undefined`/`null` and the
empty string are falsy, every other string is truthy. -/
def jsTruthy : Option String → Bool
  | some s => s ≠ ""
  | none => false

/-- The expression `a || b` on possibly-absent strings: the left operand
if truthy, otherwise the right operand unchanged. -/
def jsOrStr (a b : Option String) : Option String :=
  if jsTruthy a then a else b

/-- The expression `a || d` where `d` is a (string) default: the value of
`a` if truthy, otherwise `d`. -/
def jsStrD (a : Option String) (d : String) : String :=
  match a with
  | some s => if s = "" then d else s
  | none => d

/-- The expression `b || false` on a possibly-absent boolean. -/
def jsBoolD (b : Option Bool) : Bool :=
  b.getD false

/-- The expression `new Date(t || Date.now())` with timestamps as epoch
milliseconds: the numeric value `0` is falsy, as is an absent value. -/
def jsDate (t : Option Int) (now : Int) : Int :=
  match t with
  | some v => if v = 0 then now else v
  | none => now

/-! ## JavaScript `Map` as an insertion-ordered association list -/

/-- `Map.prototype.get`. -/
def jsMapGet : List (String × α) → String → Option α
  | [], _ => none
  | (k, v) :: rest, key => if k = key then some v else jsMapGet rest key

/-- `Map.prototype.set`: updates the value in place for an existing key
(keeping its position), otherwise appends the new entry at the end. -/
def jsMapSet : List (String × α) → String → α → List (String × α)
  | [], key, v => [(key, v)]
  | (k, w) :: rest, key, v =>
      if k = key then (k, v) :: rest else (k, w) :: jsMapSet rest key v

/-- `Map.prototype.delete`. -/
def jsMapDelete (m : List (String × α)) (key : String) : List (String × α) :=
  m.filter (fun kv => kv.1 != key)

/-- `Map.prototype.has`. -/
def jsMapHas (m : List (String × α)) (key : String) : Bool :=
  (jsMapGet m key).isSome

/-! ## `Array.prototype.findIndex`, as an `Option Nat` -/

/-- `findIndex`: index of the first element satisfying `p` (`-1`, i.e.
`none`, when there is none). -/
def findIndex (p : α → Bool) : List α → Option Nat
  | [] => none
  | x :: xs => if p x then some 0 else (findIndex p xs).map (· + 1)

/-! ## Stable sort (`Array.prototype.sort` with a numeric key comparator)

ECMA-262 requires `Array.prototype.sort` to be stable; with the numeric
comparators used in the source (`a.key - b.key`) the result is the list
sorted ascending by key with equal keys kept in their original order.
That behaviour is modelled by a left-to-right stable insertion sort:
each element is inserted after all already-placed elements whose key is
less than or equal to its own. -/

/-- Insert `x` into `l` directly after every element whose key is `≤` the
key of `x` (stability: equal keys keep earlier elements first). -/
def stableInsertBy (key : α → Int) (x : α) : List α → List α
  | [] => [x]
  | y :: ys => if key x < key y then x :: y :: ys else y :: stableInsertBy key x ys

/-- Stable sort ascending by `key`. -/
def stableSortBy (key : α → Int) (l : List α) : List α :=
  l.foldl (fun acc x => stableInsertBy key x acc) []

/-! ## The message records of `useMessages` (`IChatMessage`) -/

/-- `IChatMessage` from `useApi.ts`: the canonical message record stored
per conversation. `Date` fields are epoch milliseconds; optional
rendering-only fields (`senderName`, `fileUrl`, ...) carry no logic in
the store operations and are kept as optional strings. -/
structure ChatMsg where
  id : String
  conversationId : String
  senderId : String
  content : String
  type : String
  fileUrl : Option String
  fileName : Option String
  readBy : List String
  replyTo : Option String
  isEdited : Bool
  isDeleted : Bool
  createdAt : Int
  updatedAt : Int
deriving DecidableEq, Repr

/-- The comparator key of `addMessage`:
`new Date(a.createdAt).getTime()`. -/
def createdAtKey (m : ChatMsg) : Int :=
  m.createdAt

/-- The sort in `addMessage`: `conversationMessages.sort((a, b) =>
new Date(a.createdAt).getTime() - new Date(b.createdAt).getTime())`. -/
def sortByCreatedAt (l : List ChatMsg) : List ChatMsg :=
  stableSortBy createdAtKey l

/-- The per-conversation message store `messages` of `useMessages`:
a `Map<string, IChatMessage[]>`. -/
abbrev MsgStore := List (String × List ChatMsg)

/-- The list-level body of `addMessage`: replace the first entry with the
same `id` in place if one exists, otherwise push at the end; then re-sort
by `createdAt` (the source sorts unconditionally after either branch). -/
def addMsgList (msgs : List ChatMsg) (m : ChatMsg) : List ChatMsg :=
  match findIndex (fun x => x.id == m.id) msgs with
  | some j => sortByCreatedAt (msgs.set j m)
  | none => sortByCreatedAt (msgs ++ [m])

/-- `addMessage(conversationId, message)` of `useMessages`: ensures the
conversation key exists, then merges the message into its list. -/
def addMessage (store : MsgStore) (conversationId : String) (m : ChatMsg) : MsgStore :=
  let msgs := (jsMapGet store conversationId).getD []
  jsMapSet store conversationId (addMsgList msgs m)

/-- `removeMessage(messageId)` of `useMessages`: walks the conversations
in map order, splices the first message with the given id out of the
first conversation list containing it, and stops (`break`). -/
def removeMessage (store : MsgStore) (messageId : String) : MsgStore :=
  match store with
  | [] => []
  | (cid, msgs) :: rest =>
      match findIndex (fun x => x.id == messageId) msgs with
      | some i => (cid, msgs.eraseIdx i) :: rest
      | none => (cid, msgs) :: removeMessage rest messageId

/-- `deleteMessage(messageId)` of `useMessages`: calls the DELETE
endpoint; on success removes the message from the local store and
returns `true`, on a caught error leaves the store untouched and
returns `false`. The outcome of the network call is passed in as
`apiDelOk`. -/
def deleteMessage (store : MsgStore) (apiDelOk : Bool) (messageId : String) :
    Bool × MsgStore :=
  if apiDelOk then (true, removeMessage store messageId) else (false, store)

/-! ## Lemmas about the stable sort -/

/-- Sortedness by an integer key, as a `Pairwise` relation. -/
def SortedByKey (key : α → Int) (l : List α) : Prop :=
  l.Pairwise (fun a b => key a ≤ key b)

theorem stableInsertBy_perm (key : α → Int) (x : α) :
    ∀ l : List α, (stableInsertBy key x l).Perm (x :: l) := by
  intro l
  induction l with
  | nil => simp [stableInsertBy]
  | cons y ys ih =>
      by_cases h : key x < key y
      · simp [stableInsertBy, h]
      · simp only [stableInsertBy, if_neg h]
        exact (ih.cons y).trans (List.Perm.swap x y ys)

theorem mem_stableInsertBy (key : α → Int) (x a : α) (l : List α) :
    a ∈ stableInsertBy key x l ↔ a = x ∨ a ∈ l := by
  rw [(stableInsertBy_perm key x l).mem_iff, List.mem_cons]

theorem stableInsertBy_pairwise (key : α → Int) (x : α) (l : List α)
    (h : SortedByKey key l) : SortedByKey key (stableInsertBy key x l) := by
  induction l with
  | nil => simp [stableInsertBy, SortedByKey]
  | cons y ys ih =>
      rcases (List.pairwise_cons.mp h) with ⟨hy, hys⟩
      by_cases hlt : key x < key y
      · simp only [SortedByKey, stableInsertBy, if_pos hlt]
        refine List.pairwise_cons.mpr ⟨?_, h⟩
        intro b hb
        rcases List.mem_cons.mp hb with rfl | hb
        · exact le_of_lt hlt
        · exact le_trans (le_of_lt hlt) (hy b hb)
      · simp only [SortedByKey, stableInsertBy, if_neg hlt]
        refine List.pairwise_cons.mpr ⟨?_, ih hys⟩
        intro b hb
        rcases (mem_stableInsertBy key x b ys).mp hb with rfl | hb
        · exact le_of_not_lt hlt
        · exact hy b hb

theorem foldl_stableInsertBy_perm (key : α → Int) :
    ∀ (l acc : List α),
      (l.foldl (fun acc x => stableInsertBy key x acc) acc).Perm (acc ++ l) := by
  intro l
  induction l with
  | nil => intro acc; simp
  | cons x xs ih =>
      intro acc
      have h1 := ih (stableInsertBy key x acc)
      have h2 : (stableInsertBy key x acc ++ xs).Perm ((x :: acc) ++ xs) :=
        (stableInsertBy_perm key x acc).append_right xs
      have h3 : ((x :: acc) ++ xs).Perm (acc ++ x :: xs) := by
        rw [List.cons_append]
        exact List.perm_middle.symm
      exact (h1.trans h2).trans h3

theorem stableSortBy_perm (key : α → Int) (l : List α) :
    (stableSortBy key l).Perm l := by
  simpa [stableSortBy] using foldl_stableInsertBy_perm key l []

theorem foldl_stableInsertBy_pairwise (key : α → Int) :
    ∀ (l acc : List α), SortedByKey key acc →
      SortedByKey key (l.foldl (fun acc x => stableInsertBy key x acc) acc) := by
  intro l
  induction l with
  | nil => intro acc h; simpa using h
  | cons x xs ih =>
      intro acc h
      exact ih (stableInsertBy key x acc) (stableInsertBy_pairwise key x acc h)

theorem stableSortBy_pairwise (key : α → Int) (l : List α) :
    SortedByKey key (stableSortBy key l) :=
  foldl_stableInsertBy_pairwise key l [] (by simp [SortedByKey])

theorem stableInsertBy_of_all_le (key : α → Int) (x : α) :
    ∀ l : List α, (∀ a ∈ l, key a ≤ key x) → stableInsertBy key x l = l ++ [x] := by
  intro l
  induction l with
  | nil => intro _; simp [stableInsertBy]
  | cons y ys ih =>
      intro h
      have hy : key y ≤ key x := h y (List.mem_cons_self y ys)
      have : ¬ key x < key y := not_lt.mpr hy
      simp only [stableInsertBy, if_neg this, List.cons_append, List.cons.injEq, true_and]
      exact ih (fun a ha => h a (List.mem_cons_of_mem y ha))

theorem foldl_stableInsertBy_of_sorted (key : α → Int) :
    ∀ (l acc : List α), SortedByKey key (acc ++ l) →
      l.foldl (fun acc x => stableInsertBy key x acc) acc = acc ++ l := by
  intro l
  induction l with
  | nil => intro acc _; simp
  | cons x xs ih =>
      intro acc h
      have hcross := (List.pairwise_append.mp h).2.2
      have hstep : stableInsertBy key x acc = acc ++ [x] :=
        stableInsertBy_of_all_le key x acc
          (fun a ha => hcross a ha x (List.mem_cons_self x xs))
      have hassoc : (acc ++ [x]) ++ xs = acc ++ x :: xs := by simp
      have h2 : SortedByKey key ((acc ++ [x]) ++ xs) := by rw [hassoc]; exact h
      calc (x :: xs).foldl (fun acc x => stableInsertBy key x acc) acc
      _ = xs.foldl (fun acc x => stableInsertBy key x acc) (acc ++ [x]) := by
            rw [List.foldl_cons, hstep]
      _ = (acc ++ [x]) ++ xs := ih (acc ++ [x]) h2
      _ = acc ++ x :: xs := hassoc

theorem stableSortBy_of_sorted (key : α → Int) (l : List α)
    (h : SortedByKey key l) : stableSortBy key l = l := by
  simpa [stableSortBy] using
    foldl_stableInsertBy_of_sorted key l [] (by simpa using h)

theorem stableSortBy_idem (key : α → Int) (l : List α) :
    stableSortBy key (stableSortBy key l) = stableSortBy key l :=
  stableSortBy_of_sorted key _ (stableSortBy_pairwise key l)

/-! ## Lemmas about `findIndex`, `List.set` and the association maps -/

theorem findIndex_eq_none_iff (p : α → Bool) :
    ∀ l : List α, findIndex p l = none ↔ ∀ x ∈ l, p x = false := by
  intro l
  induction l with
  | nil => simp [findIndex]
  | cons x xs ih =>
      by_cases h : p x
      · simp only [findIndex, if_pos h]
        constructor
        · intro hc; exact absurd hc (by simp)
        · intro hall
          have hx := hall x (List.mem_cons_self x xs)
          rw [h] at hx
          exact absurd hx (by simp)
      · have hx : p x = false := by simpa using h
        simp only [findIndex, if_neg h, Option.map_eq_none']
        rw [ih]
        constructor
        · intro hall y hy
          rcases List.mem_cons.mp hy with rfl | hy
          · exact hx
          · exact hall y hy
        · intro hall y hy
          exact hall y (List.mem_cons_of_mem x hy)

theorem findIndex_some_spec (p : α → Bool) :
    ∀ (l : List α) (j : Nat), findIndex p l = some j →
      ∃ x, l[j]? = some x ∧ p x = true := by
  intro l
  induction l with
  | nil => intro j h; simp [findIndex] at h
  | cons x xs ih =>
      intro j h
      by_cases hx : p x
      · simp only [findIndex, if_pos hx, Option.some.injEq] at h
        subst h
        exact ⟨x, by simp, hx⟩
      · simp only [findIndex, if_neg hx, Option.map_eq_some'] at h
        rcases h with ⟨j', hj', rfl⟩
        rcases ih j' hj' with ⟨y, hy, hp⟩
        exact ⟨y, by simpa using hy, hp⟩

theorem set_getElem_self : ∀ (l : List α) (j : Nat) (a : α),
    l[j]? = some a → l.set j a = l := by
  intro l
  induction l with
  | nil => intro j a h; simp at h
  | cons x xs ih =>
      intro j a h
      cases j with
      | zero =>
          simp only [List.getElem?_cons_zero, Option.some.injEq] at h
          simp [h]
      | succ j' =>
          simp only [List.getElem?_cons_succ] at h
          simp [ih j' a h]

theorem mem_set_self : ∀ (l : List α) (j : Nat) (a : α),
    j < l.length → a ∈ l.set j a := by
  intro l
  induction l with
  | nil => intro j a h; simp at h
  | cons x xs ih =>
      intro j a h
      cases j with
      | zero => simp
      | succ j' =>
          simp only [List.set_cons_succ, List.mem_cons]
          exact Or.inr (ih j' a (by simpa using h))

theorem map_set_of_eq (f : α → β) :
    ∀ (l : List α) (j : Nat) (a x : α), l[j]? = some x → f x = f a →
      (l.set j a).map f = l.map f := by
  intro l
  induction l with
  | nil => intro j a x h _; simp at h
  | cons y ys ih =>
      intro j a x h hf
      cases j with
      | zero =>
          simp only [List.getElem?_cons_zero, Option.some.injEq] at h
          subst h
          simp [hf.symm]
      | succ j' =>
          simp only [List.getElem?_cons_succ] at h
          simp [ih j' a x h hf]

theorem getElem?_some_mem : ∀ (l : List α) (j : Nat) (a : α),
    l[j]? = some a → a ∈ l := by
  intro l
  induction l with
  | nil => intro j a h; simp at h
  | cons x xs ih =>
      intro j a h
      cases j with
      | zero =>
          simp only [List.getElem?_cons_zero, Option.some.injEq] at h
          simp [h]
      | succ j' =>
          simp only [List.getElem?_cons_succ] at h
          exact List.mem_cons_of_mem x (ih j' a h)

theorem getElem?_some_lt_length : ∀ (l : List α) (j : Nat) (a : α),
    l[j]? = some a → j < l.length := by
  intro l
  induction l with
  | nil => intro j a h; simp at h
  | cons x xs ih =>
      intro j a h
      cases j with
      | zero => simp
      | succ j' =>
          simp only [List.getElem?_cons_succ] at h
          simpa using ih j' a h

theorem jsMapGet_jsMapSet_self (m : List (String × α)) (k : String) (v : α) :
    jsMapGet (jsMapSet m k v) k = some v := by
  induction m with
  | nil => simp [jsMapGet, jsMapSet]
  | cons kv rest ih =>
      by_cases h : kv.1 = k
      · cases kv; simp_all [jsMapGet, jsMapSet]
      · cases kv; simp_all [jsMapGet, jsMapSet]

theorem jsMapSet_jsMapSet_self (m : List (String × α)) (k : String) (v w : α) :
    jsMapSet (jsMapSet m k v) k w = jsMapSet m k w := by
  induction m with
  | nil => simp [jsMapSet]
  | cons kv rest ih =>
      by_cases h : kv.1 = k
      · cases kv; simp_all [jsMapSet]
      · cases kv; simp_all [jsMapSet]

theorem jsMapSet_absent (m : List (String × α)) (k : String) (v : α)
    (h : jsMapGet m k = none) : jsMapSet m k v = m ++ [(k, v)] := by
  induction m with
  | nil => simp [jsMapSet]
  | cons kv rest ih =>
      by_cases hk : kv.1 = k
      · cases kv; simp_all [jsMapGet]
      · cases kv
        simp only [jsMapGet] at h
        simp only [jsMapSet]
        rw [if_neg hk]
        rw [if_neg hk] at h
        simp [ih h]

/-! ## Idempotence of the message merge (the data for claim C1) -/

theorem addMsgList_eq_of_none (msgs : List ChatMsg) (m : ChatMsg)
    (h : findIndex (fun x => x.id == m.id) msgs = none) :
    addMsgList msgs m = sortByCreatedAt (msgs ++ [m]) := by
  unfold addMsgList
  rw [h]

theorem addMsgList_eq_of_some (msgs : List ChatMsg) (m : ChatMsg) (j : Nat)
    (h : findIndex (fun x => x.id == m.id) msgs = some j) :
    addMsgList msgs m = sortByCreatedAt (msgs.set j m) := by
  unfold addMsgList
  rw [h]

theorem addMsgList_mem_self (msgs : List ChatMsg) (m : ChatMsg) :
    m ∈ addMsgList msgs m := by
  cases hfi : findIndex (fun x => x.id == m.id) msgs with
  | none =>
      rw [addMsgList_eq_of_none msgs m hfi]
      exact ((stableSortBy_perm createdAtKey _).mem_iff).mpr (by simp)
  | some j =>
      rcases findIndex_some_spec _ msgs j hfi with ⟨x, hx, _⟩
      have hlt : j < msgs.length := getElem?_some_lt_length msgs j x hx
      rw [addMsgList_eq_of_some msgs m j hfi]
      exact ((stableSortBy_perm createdAtKey _).mem_iff).mpr
        (mem_set_self msgs j m hlt)

theorem addMsgList_ids_nodup (msgs : List ChatMsg) (m : ChatMsg)
    (h : (msgs.map ChatMsg.id).Nodup) :
    ((addMsgList msgs m).map ChatMsg.id).Nodup := by
  cases hfi : findIndex (fun x => x.id == m.id) msgs with
  | none =>
      rw [addMsgList_eq_of_none msgs m hfi]
      have hfresh : ∀ x ∈ msgs, x.id ≠ m.id := by
        intro x hx
        have := ((findIndex_eq_none_iff _ msgs).mp hfi) x hx
        simpa using this
      have hperm := (stableSortBy_perm createdAtKey (msgs ++ [m])).map ChatMsg.id
      refine hperm.symm.nodup ?_
      rw [List.map_append, List.nodup_append]
      refine ⟨h, by simp, ?_⟩
      intro a ha hb
      rcases List.mem_map.mp ha with ⟨x, hx, rfl⟩
      simp only [List.map_cons, List.map_nil, List.mem_singleton] at hb
      exact hfresh x hx hb
  | some j =>
      rw [addMsgList_eq_of_some msgs m j hfi]
      rcases findIndex_some_spec _ msgs j hfi with ⟨x, hx, hpx⟩
      have hid : x.id = m.id := by simpa using hpx
      have hperm := (stableSortBy_perm createdAtKey (msgs.set j m)).map ChatMsg.id
      refine hperm.symm.nodup ?_
      rw [map_set_of_eq ChatMsg.id msgs j m x hx hid]
      exact h

theorem addMsgList_sorted (msgs : List ChatMsg) (m : ChatMsg) :
    SortedByKey createdAtKey (addMsgList msgs m) := by
  cases hfi : findIndex (fun x => x.id == m.id) msgs with
  | none =>
      rw [addMsgList_eq_of_none msgs m hfi]
      exact stableSortBy_pairwise createdAtKey _
  | some j =>
      rw [addMsgList_eq_of_some msgs m j hfi]
      exact stableSortBy_pairwise createdAtKey _

theorem addMsgList_idem (msgs : List ChatMsg) (m : ChatMsg)
    (h : (msgs.map ChatMsg.id).Nodup) :
    addMsgList (addMsgList msgs m) m = addMsgList msgs m := by
  have hmem : m ∈ addMsgList msgs m := addMsgList_mem_self msgs m
  have hnodup : ((addMsgList msgs m).map ChatMsg.id).Nodup :=
    addMsgList_ids_nodup msgs m h
  have hsorted : SortedByKey createdAtKey (addMsgList msgs m) :=
    addMsgList_sorted msgs m
  set L := addMsgList msgs m with hL
  have hnotnone : findIndex (fun x => x.id == m.id) L ≠ none := by
    intro hno
    have := ((findIndex_eq_none_iff _ L).mp hno) m hmem
    simp at this
  cases hfi : findIndex (fun x => x.id == m.id) L with
  | none => exact absurd hfi hnotnone
  | some j =>
      rcases findIndex_some_spec _ L j hfi with ⟨x, hx, hpx⟩
      have hxid : x.id = m.id := by simpa using hpx
      have hxmem : x ∈ L := getElem?_some_mem L j x hx
      have hxeq : x = m := List.inj_on_of_nodup_map hnodup hxmem hmem hxid
      subst hxeq
      rw [addMsgList_eq_of_some L x j hfi]
      rw [set_getElem_self L j x hx]
      exact stableSortBy_of_sorted createdAtKey L hsorted

/-- Generic messages used as concrete inputs in witnesses. -/
def mkMsg (i : String) (t : Int) : ChatMsg :=
  { id := i, conversationId := "c1", senderId := "u1", content := "hi",
    type := "text", fileUrl := none, fileName := none, readBy := [],
    replyTo := none, isEdited := false, isDeleted := false,
    createdAt := t, updatedAt := t }

/-- C1: merging a message into a conversation's list via the store's
`addMessage` is idempotent — the second application replaces the entry
with the same id by an equal record and the re-sort leaves the
already-sorted list unchanged. The hypothesis is the store's documented
invariant that message ids are unique within a conversation's list. -/
theorem addMessage_idempotent (store : MsgStore) (cid : String) (m : ChatMsg)
    (h : (((jsMapGet store cid).getD []).map ChatMsg.id).Nodup) :
    addMessage (addMessage store cid m) cid m = addMessage store cid m := by
  unfold addMessage
  rw [jsMapGet_jsMapSet_self]
  simp only [Option.getD_some]
  rw [addMsgList_idem _ m h, jsMapSet_jsMapSet_self]

/-- Witness for C1 at a concrete store holding one other message. -/
theorem addMessage_idempotent_witness :
    (((jsMapGet ([("c1", [mkMsg "m2" 3])] : MsgStore) "c1").getD []).map ChatMsg.id).Nodup
    ∧ addMessage (addMessage [("c1", [mkMsg "m2" 3])] "c1" (mkMsg "m1" 5)) "c1" (mkMsg "m1" 5)
        = addMessage [("c1", [mkMsg "m2" 3])] "c1" (mkMsg "m1" 5) :=
  ⟨by decide, addMessage_idempotent [("c1", [mkMsg "m2" 3])] "c1" (mkMsg "m1" 5) (by decide)⟩

/-! ## Ordering of the merged list (the data for claim C6) -/

theorem stableSortBy_append_singleton (key : α → Int) (l : List α) (a : α) :
    stableSortBy key (l ++ [a]) = stableInsertBy key a (stableSortBy key l) := by
  unfold stableSortBy
  rw [List.foldl_append]
  simp

theorem foldl_addMessage_single (cid : String) :
    ∀ (ms : List ChatMsg) (L : List ChatMsg),
      ms.foldl (fun s m => addMessage s cid m) [(cid, L)]
        = [(cid, ms.foldl addMsgList L)] := by
  intro ms
  induction ms with
  | nil => intro L; rfl
  | cons m rest ih =>
      intro L
      have h1 : addMessage [(cid, L)] cid m = [(cid, addMsgList L m)] := by
        unfold addMessage
        simp [jsMapGet, jsMapSet]
      simp only [List.foldl_cons, h1, ih]

theorem foldl_addMsgList_eq_sort :
    ∀ ms : List ChatMsg, (ms.map ChatMsg.id).Nodup →
      ms.foldl addMsgList [] = sortByCreatedAt ms := by
  intro ms
  induction ms using List.reverseRecOn with
  | nil => intro _; rfl
  | append_singleton l a ih =>
      intro h
      rw [List.map_append, List.nodup_append] at h
      rcases h with ⟨hl, _, hdisj⟩
      rw [List.foldl_append, ih hl]
      simp only [List.foldl_cons, List.foldl_nil]
      have hfresh : findIndex (fun x => x.id == a.id) (sortByCreatedAt l) = none := by
        rw [findIndex_eq_none_iff]
        intro x hx
        have hxl : x ∈ l := ((stableSortBy_perm createdAtKey l).mem_iff).mp hx
        have hne : x.id ≠ a.id := by
          intro he
          exact hdisj (List.mem_map_of_mem ChatMsg.id hxl) (by simp [he])
        simpa using hne
      rw [addMsgList_eq_of_none _ a hfresh]
      show sortByCreatedAt (sortByCreatedAt l ++ [a]) = sortByCreatedAt (l ++ [a])
      unfold sortByCreatedAt
      rw [stableSortBy_append_singleton, stableSortBy_append_singleton,
        stableSortBy_idem]

/-- C6: merging any finite set of messages (distinct ids, the documented
invariant) into a conversation in any arrival order via the store's
`addMessage` leaves the stored list equal to the stable sort of the
arrival sequence by `createdAt` — i.e. sorted ascending by `createdAt`
with ties kept in arrival order — and in particular sorted. -/
theorem addMessage_fold_ordered (cid : String) (ms : List ChatMsg)
    (h : (ms.map ChatMsg.id).Nodup) :
    ((jsMapGet (ms.foldl (fun s m => addMessage s cid m) []) cid).getD [])
        = sortByCreatedAt ms
    ∧ SortedByKey createdAtKey
        ((jsMapGet (ms.foldl (fun s m => addMessage s cid m) []) cid).getD []) := by
  have hmain : ((jsMapGet (ms.foldl (fun s m => addMessage s cid m) []) cid).getD [])
      = sortByCreatedAt ms := by
    cases ms with
    | nil => rfl
    | cons m rest =>
        have h0 : addMessage [] cid m = [(cid, addMsgList [] m)] := by
          unfold addMessage
          simp [jsMapGet, jsMapSet]
        rw [List.foldl_cons, h0, foldl_addMessage_single cid rest (addMsgList [] m)]
        simp only [jsMapGet, if_true, eq_self_iff_true, Option.getD_some]
        have hstep : rest.foldl addMsgList (addMsgList [] m)
            = (m :: rest).foldl addMsgList [] := rfl
        rw [hstep, foldl_addMsgList_eq_sort (m :: rest) h]
  exact ⟨hmain, hmain ▸ stableSortBy_pairwise createdAtKey ms⟩

/-- Witness for C6: three messages arriving out of `createdAt` order. -/
theorem addMessage_fold_ordered_witness :
    (([mkMsg "m3" 30, mkMsg "m1" 10, mkMsg "m2" 20].map ChatMsg.id).Nodup)
    ∧ (((jsMapGet ([mkMsg "m3" 30, mkMsg "m1" 10, mkMsg "m2" 20].foldl
          (fun s m => addMessage s "c1" m) []) "c1").getD [])
        = sortByCreatedAt [mkMsg "m3" 30, mkMsg "m1" 10, mkMsg "m2" 20]
      ∧ SortedByKey createdAtKey
          ((jsMapGet ([mkMsg "m3" 30, mkMsg "m1" 10, mkMsg "m2" 20].foldl
            (fun s m => addMessage s "c1" m) []) "c1").getD [])) :=
  ⟨by decide,
    addMessage_fold_ordered "c1" [mkMsg "m3" 30, mkMsg "m1" 10, mkMsg "m2" 20] (by decide)⟩

/-! ## Deletion (the data for claim C4)

The spec describes deletion as a soft delete (set `isDeleted` in place,
keep the entry).  The source's `deleteMessage` instead calls
`removeMessage`, which splices the entry out of the list. -/

theorem removeMessage_append (mid : String) :
    ∀ (pre : MsgStore) (post : MsgStore) (cid : String) (msgs : List ChatMsg) (i : Nat),
      (∀ e ∈ pre, findIndex (fun x => x.id == mid) e.2 = none) →
      findIndex (fun x => x.id == mid) msgs = some i →
      removeMessage (pre ++ (cid, msgs) :: post) mid
        = pre ++ (cid, msgs.eraseIdx i) :: post := by
  intro pre
  induction pre with
  | nil =>
      intro post cid msgs i _ hfind
      simp only [List.nil_append, removeMessage, hfind]
  | cons e rest ih =>
      intro post cid msgs i hpre hfind
      obtain ⟨ecid, emsgs⟩ := e
      have he : findIndex (fun x => x.id == mid) emsgs = none :=
        hpre (ecid, emsgs) (List.mem_cons_self _ _)
      simp only [List.cons_append, removeMessage, he, List.append_eq]
      rw [ih post cid msgs i (fun e he2 => hpre e (List.mem_cons_of_mem _ he2)) hfind]

/-- C4 counterexample: deleting a message is not a soft delete.  On the
concrete one-message store, the successful `deleteMessage` path leaves
the conversation's list empty — no entry with the deleted id remains —
even though the entry was present before. -/
theorem deleteMessage_not_soft_counterexample :
    ((jsMapGet ([("c1", [mkMsg "m1" 100])] : MsgStore) "c1").getD []).map ChatMsg.id = ["m1"]
    ∧ ((jsMapGet (deleteMessage [("c1", [mkMsg "m1" 100])] true "m1").2 "c1").getD []).map ChatMsg.id = [] := by
  constructor
  · rfl
  · rfl

/-- C4 amended: deletion is a hard removal.  A successful delete splices
the first entry with the given id out of the first conversation list
containing it, leaving every other message (and every other
conversation) unchanged in order; a failed delete changes nothing. -/
theorem deleteMessage_hard_removes (pre post : MsgStore) (cid : String)
    (msgs : List ChatMsg) (mid : String) (i : Nat)
    (hpre : ∀ e ∈ pre, findIndex (fun x => x.id == mid) e.2 = none)
    (hfind : findIndex (fun x => x.id == mid) msgs = some i) :
    deleteMessage (pre ++ (cid, msgs) :: post) true mid
      = (true, pre ++ (cid, msgs.eraseIdx i) :: post)
    ∧ deleteMessage (pre ++ (cid, msgs) :: post) false mid
      = (false, pre ++ (cid, msgs) :: post) := by
  constructor
  · unfold deleteMessage
    rw [if_pos rfl, removeMessage_append mid pre post cid msgs i hpre hfind]
  · rfl

/-- Witness for C4's amended statement at a concrete two-conversation store. -/
theorem deleteMessage_hard_removes_witness :
    (∀ e ∈ ([("c0", [mkMsg "n1" 1])] : MsgStore),
        findIndex (fun x => x.id == "m1") e.2 = none)
    ∧ findIndex (fun x => x.id == "m1") [mkMsg "m0" 1, mkMsg "m1" 2] = some 1
    ∧ (deleteMessage ([("c0", [mkMsg "n1" 1])] ++ ("c1", [mkMsg "m0" 1, mkMsg "m1" 2]) :: []) true "m1"
        = (true, [("c0", [mkMsg "n1" 1])] ++ ("c1", [mkMsg "m0" 1, mkMsg "m1" 2].eraseIdx 1) :: [])
      ∧ deleteMessage ([("c0", [mkMsg "n1" 1])] ++ ("c1", [mkMsg "m0" 1, mkMsg "m1" 2]) :: []) false "m1"
        = (false, [("c0", [mkMsg "n1" 1])] ++ ("c1", [mkMsg "m0" 1, mkMsg "m1" 2]) :: [])) :=
  ⟨by decide, by decide,
    deleteMessage_hard_removes [("c0", [mkMsg "n1" 1])] [] "c1"
      [mkMsg "m0" 1, mkMsg "m1" 2] "m1" 1 (by decide) (by decide)⟩

/-! ## Pinned messages (`usePinMessage`): the data for claims C8 and C2 -/

/-- `IPinnedMessage` from `pin.interface.ts`.  The embedded `IMessage` is
represented by the message record; only its `id` is consulted by the
registry operations.  `order` is the dense 0-based position. -/
structure IPinnedMessage where
  id : String
  message : ChatMsg
  pinnedBy : String
  order : Nat
  pinnedAt : Int
deriving DecidableEq, Repr

/-- The comparator key of `addPinnedMessage`:
`existing.sort((a, b) => a.order - b.order)`. -/
def pinOrderKey (pm : IPinnedMessage) : Int :=
  pm.order

/-- `addPinnedMessage(conversationId, pinnedMessage)` of `usePinMessage`:
appends (then sorts by `order`) when the message id is new, otherwise
updates the existing entry in place. -/
def addPinnedMessage (cache : List (String × List IPinnedMessage))
    (conversationId : String) (pinnedMessage : IPinnedMessage) :
    List (String × List IPinnedMessage) :=
  let existing := (jsMapGet cache conversationId).getD []
  match findIndex (fun pm => pm.message.id == pinnedMessage.message.id) existing with
  | none =>
      jsMapSet cache conversationId
        (stableSortBy pinOrderKey (existing ++ [pinnedMessage]))
  | some i => jsMapSet cache conversationId (existing.set i pinnedMessage)

/-- The dense renumbering loop `existing.forEach((pm, index) =>
pm.order = index)`, generalized over the start index. -/
def renumberFrom : Nat → List IPinnedMessage → List IPinnedMessage
  | _, [] => []
  | i, pm :: rest => { pm with order := i } :: renumberFrom (i + 1) rest

/-- Dense renumbering starting at 0. -/
def renumberPins (l : List IPinnedMessage) : List IPinnedMessage :=
  renumberFrom 0 l

/-- `removePinnedMessage(conversationId, messageId)` of `usePinMessage`:
filters the entry out and renumbers the remaining orders densely. -/
def removePinnedMessage (cache : List (String × List IPinnedMessage))
    (conversationId messageId : String) : List (String × List IPinnedMessage) :=
  let existing := (jsMapGet cache conversationId).getD []
  let filtered := existing.filter (fun pm => pm.message.id != messageId)
  jsMapSet cache conversationId (renumberPins filtered)

/-- `Array.prototype.splice(n, 0, a)`: insert at position `n`, clamped to
the array length when `n` exceeds it (`take`/`drop` clamp naturally). -/
def insertAt (l : List α) (n : Nat) (a : α) : List α :=
  l.take n ++ a :: l.drop n

/-- `updatePinnedMessageOrder(conversationId, messageId, newOrder)` of
`usePinMessage`: splices the entry out of its current position, splices
it back in at `newOrder`, then renumbers every order densely.  When the
message id is absent the cache is returned unchanged (early return). -/
def updatePinnedMessageOrder (cache : List (String × List IPinnedMessage))
    (conversationId messageId : String) (newOrder : Nat) :
    List (String × List IPinnedMessage) :=
  let existing := (jsMapGet cache conversationId).getD []
  match findIndex (fun pm => pm.message.id == messageId) existing with
  | none => cache
  | some i =>
      match existing[i]? with
      | some moved =>
          jsMapSet cache conversationId
            (renumberPins (insertAt (existing.eraseIdx i) newOrder moved))
      | none => jsMapSet cache conversationId (renumberPins (existing.eraseIdx i))

/-! ### Lemmas about `insertAt`, `eraseIdx` and the renumbering -/

theorem map_eraseIdx_comm (f : α → β) :
    ∀ (l : List α) (i : Nat), (l.eraseIdx i).map f = (l.map f).eraseIdx i := by
  intro l
  induction l with
  | nil => intro i; simp
  | cons x xs ih =>
      intro i
      cases i with
      | zero => simp
      | succ i' => simp [List.eraseIdx_cons_succ, ih i']

theorem map_insertAt (f : α → β) (l : List α) (n : Nat) (a : α) :
    (insertAt l n a).map f = insertAt (l.map f) n (f a) := by
  simp [insertAt]

theorem length_insertAt (l : List α) (n : Nat) (a : α) :
    (insertAt l n a).length = l.length + 1 := by
  simp only [insertAt, List.length_append, List.length_take, List.length_cons,
    List.length_drop]
  omega

theorem eraseIdx_insertAt (a : α) :
    ∀ (l : List α) (n : Nat), (insertAt l n a).eraseIdx (min n l.length) = l := by
  intro l
  induction l with
  | nil => intro n; simp [insertAt]
  | cons x xs ih =>
      intro n
      cases n with
      | zero => simp [insertAt]
      | succ n' =>
          have hmin : min (n' + 1) (x :: xs).length = (min n' xs.length) + 1 := by
            simp [List.length_cons]
            omega
          simp only [insertAt, List.take_succ_cons, List.drop_succ_cons, hmin,
            List.cons_append, List.eraseIdx_cons_succ]
          exact congrArg (x :: ·) (ih n')

theorem getElem?_insertAt (a : α) :
    ∀ (l : List α) (n : Nat), (insertAt l n a)[min n l.length]? = some a := by
  intro l
  induction l with
  | nil => intro n; simp [insertAt]
  | cons x xs ih =>
      intro n
      cases n with
      | zero => simp [insertAt]
      | succ n' =>
          have hmin : min (n' + 1) (x :: xs).length = (min n' xs.length) + 1 := by
            simp [List.length_cons]
            omega
          simp only [insertAt, List.take_succ_cons, List.drop_succ_cons, hmin,
            List.cons_append, List.getElem?_cons_succ]
          exact ih n'

theorem renumberFrom_map_message :
    ∀ (n : Nat) (l : List IPinnedMessage),
      (renumberFrom n l).map IPinnedMessage.message = l.map IPinnedMessage.message := by
  intro n l
  induction l generalizing n with
  | nil => simp [renumberFrom]
  | cons pm rest ih => simp [renumberFrom, ih]

theorem renumberFrom_map_order :
    ∀ (l : List IPinnedMessage) (n : Nat),
      (renumberFrom n l).map IPinnedMessage.order = List.range' n l.length := by
  intro l
  induction l with
  | nil => intro n; simp [renumberFrom]
  | cons pm rest ih =>
      intro n
      simp only [renumberFrom, List.map_cons, List.length_cons, List.range'_succ]
      exact congrArg (n :: ·) (ih (n + 1))

theorem renumberPins_map_order (l : List IPinnedMessage) :
    (renumberPins l).map IPinnedMessage.order = List.range l.length := by
  rw [renumberPins, renumberFrom_map_order, List.range_eq_range']

/-- C8: reordering a pinned entry is a full positional move.  With the
entry for `mid` at index `i` of conversation `cid`'s pinned list `l`,
the reordered list has (a) orders exactly the dense sequence
`0 .. l.length - 1`, (b) the moved entry's message at position
`min newOrder (l.length - 1)` (the clamped target), and (c) after
removing the moved entry from its new position, exactly the other
entries in their previous relative order. -/
theorem updatePinnedMessageOrder_full_move
    (cache : List (String × List IPinnedMessage)) (cid mid : String)
    (newOrder i : Nat) (l : List IPinnedMessage)
    (hget : jsMapGet cache cid = some l)
    (hfind : findIndex (fun pm => pm.message.id == mid) l = some i) :
    List.map IPinnedMessage.order
        ((jsMapGet (updatePinnedMessageOrder cache cid mid newOrder) cid).getD [])
      = List.range l.length
    ∧ (List.map IPinnedMessage.message
        ((jsMapGet (updatePinnedMessageOrder cache cid mid newOrder) cid).getD []))[min newOrder (l.length - 1)]?
      = (List.map IPinnedMessage.message l)[i]?
    ∧ List.eraseIdx
        (List.map IPinnedMessage.message
          ((jsMapGet (updatePinnedMessageOrder cache cid mid newOrder) cid).getD []))
        (min newOrder (l.length - 1))
      = List.eraseIdx (List.map IPinnedMessage.message l) i := by
  rcases findIndex_some_spec _ l i hfind with ⟨moved, hmoved, _⟩
  have hlt : i < l.length := getElem?_some_lt_length l i moved hmoved
  have hres : updatePinnedMessageOrder cache cid mid newOrder
      = jsMapSet cache cid (renumberPins (insertAt (l.eraseIdx i) newOrder moved)) := by
    simp only [updatePinnedMessageOrder, hget, Option.getD_some, hfind, hmoved]
  have hlenerase : (l.eraseIdx i).length = l.length - 1 := by
    rw [List.length_eraseIdx]
    simp [hlt]
  have hresget : ((jsMapGet (updatePinnedMessageOrder cache cid mid newOrder) cid).getD [])
      = renumberPins (insertAt (l.eraseIdx i) newOrder moved) := by
    rw [hres, jsMapGet_jsMapSet_self, Option.getD_some]
  have hmsg : List.map IPinnedMessage.message
        ((jsMapGet (updatePinnedMessageOrder cache cid mid newOrder) cid).getD [])
      = insertAt (List.eraseIdx (List.map IPinnedMessage.message l) i) newOrder moved.message := by
    rw [hresget, renumberPins, renumberFrom_map_message, map_insertAt,
      map_eraseIdx_comm]
  have hlenmap : (List.eraseIdx (List.map IPinnedMessage.message l) i).length = l.length - 1 := by
    rw [← map_eraseIdx_comm, List.length_map, hlenerase]
  refine ⟨?_, ?_, ?_⟩
  · rw [hresget, renumberPins_map_order, length_insertAt, hlenerase]
    have hpos : l.length - 1 + 1 = l.length := by omega
    rw [hpos]
  · rw [hmsg, ← hlenmap, getElem?_insertAt, List.getElem?_map, hmoved]
    rfl
  · rw [hmsg, ← hlenmap, eraseIdx_insertAt]

/-- Concrete pinned entries for the C8 witness. -/
def mkPin (n : Nat) : IPinnedMessage :=
  { id := "p" ++ toString n, message := mkMsg ("m" ++ toString n) (Int.ofNat n),
    pinnedBy := "u1", order := n, pinnedAt := Int.ofNat n }

/-- Concrete five-entry pinned cache for the C8 witness. -/
def pinCache5 : List (String × List IPinnedMessage) :=
  [("c1", [mkPin 0, mkPin 1, mkPin 2, mkPin 3, mkPin 4])]

/-- Witness for C8: orders `[0,1,2,3,4]`, moving the entry at order 4 to
order 1. -/
theorem updatePinnedMessageOrder_full_move_witness :
    jsMapGet pinCache5 "c1" = some [mkPin 0, mkPin 1, mkPin 2, mkPin 3, mkPin 4]
    ∧ findIndex (fun pm => pm.message.id == "m4")
        [mkPin 0, mkPin 1, mkPin 2, mkPin 3, mkPin 4] = some 4
    ∧ (List.map IPinnedMessage.order
          ((jsMapGet (updatePinnedMessageOrder pinCache5 "c1" "m4" 1) "c1").getD [])
        = List.range [mkPin 0, mkPin 1, mkPin 2, mkPin 3, mkPin 4].length
      ∧ (List.map IPinnedMessage.message
          ((jsMapGet (updatePinnedMessageOrder pinCache5 "c1" "m4" 1) "c1").getD []))[min 1 ([mkPin 0, mkPin 1, mkPin 2, mkPin 3, mkPin 4].length - 1)]?
        = (List.map IPinnedMessage.message [mkPin 0, mkPin 1, mkPin 2, mkPin 3, mkPin 4])[4]?
      ∧ List.eraseIdx
          (List.map IPinnedMessage.message
            ((jsMapGet (updatePinnedMessageOrder pinCache5 "c1" "m4" 1) "c1").getD []))
          (min 1 ([mkPin 0, mkPin 1, mkPin 2, mkPin 3, mkPin 4].length - 1))
        = List.eraseIdx (List.map IPinnedMessage.message [mkPin 0, mkPin 1, mkPin 2, mkPin 3, mkPin 4]) 4) :=
  ⟨by decide, by decide,
    updatePinnedMessageOrder_full_move pinCache5 "c1" "m4" 1 4
      [mkPin 0, mkPin 1, mkPin 2, mkPin 3, mkPin 4] (by decide) (by decide)⟩

/-! ## Pin capacity (the data for claim C2) -/

/-- Outcome of an HTTP call as seen by `pinMessage`: either a JSON
response (with its optional `success` and `message` fields) or a thrown
error (network failure or non-2xx status, e.g. the server rejecting a
sixth pin) that the `catch` block receives. -/
inductive ApiOutcome where
  | resp (success : Option Bool) (message : Option String)
  | thrown (message : String)
deriving DecidableEq, Repr

/-- `pinMessage(messageId)` of `usePinMessage`: posts to the pin
endpoint and returns `true` when `response.success !== false`, `false`
otherwise; every error is caught, so failures are returned, never
thrown.  The function never touches the `pinnedMessages` cache, which is
therefore passed through unchanged. -/
def pinMessage (pinnedState : List (String × List IPinnedMessage))
    (outcome : ApiOutcome) : Bool × List (String × List IPinnedMessage) :=
  match outcome with
  | .resp success _ => if success = some false then (false, pinnedState) else (true, pinnedState)
  | .thrown _ => (false, pinnedState)

/-- Modelled from the spec: the server-side Pinned Message Registry
`pin(conversationId, message)` operation.  This repository is the chat
client only — the capacity check runs on the server, behind the POST
endpoint `pinMessage` calls — so the registry itself is absent from the
sources and is modelled from the spec's words: it fails with a capacity
error if the conversation already holds 5 pinned entries, otherwise
appends with `order = currentCount`. -/
def registryPin (entries : List IPinnedMessage) (pinId : String) (m : ChatMsg)
    (pinnedBy : String) (pinnedAt : Int) : Except String (List IPinnedMessage) :=
  if 5 ≤ entries.length then .error "pin limit reached"
  else
    .ok (entries ++
      [{ id := pinId, message := m, pinnedBy := pinnedBy,
         order := entries.length, pinnedAt := pinnedAt }])

/-- C2: pinning into a conversation already holding 5 entries fails with
the capacity error; the client surfaces the rejected call as a `false`
result (not a throw) and its pinned state is unchanged; pinning into a
conversation with fewer than 5 entries appends an entry whose `order`
equals the current entry count. -/
theorem pin_capacity (entries other : List IPinnedMessage) (pinId : String)
    (m : ChatMsg) (pinnedBy : String) (pinnedAt : Int)
    (st : List (String × List IPinnedMessage)) (errText : String)
    (h5 : entries.length = 5) (hlt : other.length < 5) :
    registryPin entries pinId m pinnedBy pinnedAt = .error "pin limit reached"
    ∧ pinMessage st (.thrown errText) = (false, st)
    ∧ registryPin other pinId m pinnedBy pinnedAt
        = .ok (other ++
            [{ id := pinId, message := m, pinnedBy := pinnedBy,
               order := other.length, pinnedAt := pinnedAt }]) := by
  refine ⟨?_, rfl, ?_⟩
  · unfold registryPin
    rw [if_pos (by omega)]
  · unfold registryPin
    rw [if_neg (by omega)]

/-- Witness for C2 at a concrete full (5-entry) and non-full (2-entry)
pinned list. -/
theorem pin_capacity_witness :
    [mkPin 0, mkPin 1, mkPin 2, mkPin 3, mkPin 4].length = 5
    ∧ [mkPin 0, mkPin 1].length < 5
    ∧ (registryPin [mkPin 0, mkPin 1, mkPin 2, mkPin 3, mkPin 4] "p5" (mkMsg "m5" 5) "u1" 5
        = .error "pin limit reached"
      ∧ pinMessage pinCache5 (.thrown "pin limit reached") = (false, pinCache5)
      ∧ registryPin [mkPin 0, mkPin 1] "p5" (mkMsg "m5" 5) "u1" 5
        = .ok ([mkPin 0, mkPin 1] ++
            [{ id := "p5", message := mkMsg "m5" 5, pinnedBy := "u1",
               order := [mkPin 0, mkPin 1].length, pinnedAt := 5 }])) :=
  ⟨by decide, by decide,
    pin_capacity [mkPin 0, mkPin 1, mkPin 2, mkPin 3, mkPin 4] [mkPin 0, mkPin 1]
      "p5" (mkMsg "m5" 5) "u1" 5 pinCache5 "pin limit reached" (by decide) (by decide)⟩

/-! ## Typing indicators (`useChat`): the data for claim C7 -/

/-- `ITypingUser` from `useChat.ts`. -/
structure ITypingUser where
  userId : String
  conversationId : String
  isTyping : Bool
  timestamp : Int
deriving DecidableEq, Repr

/-- The mutable state of `useChat` relevant to typing: the
`typingUsers` map and, for each key, the pending `setTimeout` expiry
(absolute time).  Because the handler always clears the previous timer
for a key before scheduling a new one, at most one timer per key is
pending, so a key-indexed map of expiry times is a faithful model of
the `typingTimeouts` map. -/
structure ChatTypingState where
  typingUsers : List (String × ITypingUser)
  typingTimeouts : List (String × Int)
deriving DecidableEq, Repr

/-- The key `` `${data.conversationId}-${data.userId}` ``. -/
def typingKey (conversationId userId : String) : String :=
  conversationId ++ "-" ++ userId

/-- Fire every timer due at or before `now`: each timeout callback
deletes its key from `typingUsers` and from `typingTimeouts`. -/
def fireDueTimers (now : Int) (st : ChatTypingState) : ChatTypingState :=
  { typingUsers := st.typingUsers.filter
      (fun kv => (jsMapGet (st.typingTimeouts.filter (fun tv => decide (tv.2 ≤ now))) kv.1).isNone),
    typingTimeouts := st.typingTimeouts.filter (fun tv => decide (now < tv.2)) }

/-- The `user_typing` handler of `setupListeners`: on `isTyping = true`
it inserts/refreshes the indicator (with `timestamp = Date.now()`),
clears any existing timeout for the key, and schedules a fresh
3000 ms expiry; on `isTyping = false` it removes the indicator and
cancels the timer. -/
def handleUserTyping (st : ChatTypingState) (conversationId userId : String)
    (isTyping : Bool) (now : Int) : ChatTypingState :=
  let key := typingKey conversationId userId
  if isTyping then
    { typingUsers := jsMapSet st.typingUsers key
        { userId := userId, conversationId := conversationId,
          isTyping := isTyping, timestamp := now },
      typingTimeouts := jsMapSet (jsMapDelete st.typingTimeouts key) key (now + 3000) }
  else
    { typingUsers := jsMapDelete st.typingUsers key,
      typingTimeouts := jsMapDelete st.typingTimeouts key }

/-- One timestamped inbound `user_typing` event. -/
structure TypingEvent where
  time : Int
  conversationId : String
  userId : String
  isTyping : Bool
deriving DecidableEq, Repr

/-- Process one event: timers due by the event's time fire first (the
event loop runs due callbacks before later turns), then the handler
runs. -/
def stepTypingEvent (st : ChatTypingState) (e : TypingEvent) : ChatTypingState :=
  handleUserTyping (fireDueTimers e.time st) e.conversationId e.userId e.isTyping e.time

/-- Run a trace of `user_typing` events from the initial empty state. -/
def runTypingEvents (es : List TypingEvent) : ChatTypingState :=
  es.foldl stepTypingEvent { typingUsers := [], typingTimeouts := [] }

/-- `getTypingUsers(conversationId)` of `useChat`: all stored indicators
for the conversation whose `isTyping` flag is set. -/
def getTypingUsers (st : ChatTypingState) (conversationId : String) : List ITypingUser :=
  (st.typingUsers.map Prod.snd).filter
    (fun u => u.conversationId == conversationId && u.isTyping)

/-- `getTypingUsers` as observed at wall-clock time `now` after a trace:
timers due by `now` have fired. -/
def observeTyping (es : List TypingEvent) (conversationId : String) (now : Int) :
    List ITypingUser :=
  getTypingUsers (fireDueTimers now (runTypingEvents es)) conversationId

/-- C7: a typing-start cancels the previous timer for its key before
scheduling a new 3000 ms one, so the indicator survives exactly until
3000 ms after the last refresh.  With a single start at t = 0 the
indicator is gone at any time beyond 3000 ms and still present at any
earlier (non-negative) time; with a refresh at t = 2000 the indicator is
still present at t = 3500 (past the first start's naive expiry). -/
theorem typing_refresh_outlives_stale_timer (t1 t2 : Int)
    (h1 : 3000 < t1) (h2 : 0 ≤ t2) (h3 : t2 < 3000) :
    observeTyping [⟨0, "c", "u", true⟩] "c" t1 = []
    ∧ observeTyping [⟨0, "c", "u", true⟩] "c" t2
        = [{ userId := "u", conversationId := "c", isTyping := true, timestamp := 0 }]
    ∧ observeTyping [⟨0, "c", "u", true⟩, ⟨2000, "c", "u", true⟩] "c" 3500
        = [{ userId := "u", conversationId := "c", isTyping := true, timestamp := 2000 }] := by
  have hrun : runTypingEvents [⟨0, "c", "u", true⟩]
      = ⟨[("c-u", ⟨"u", "c", true, 0⟩)], [("c-u", 3000)]⟩ := by
    decide
  have hle : (3000 : Int) ≤ t1 := le_of_lt h1
  have hnlt : ¬ (t1 < 3000) := not_lt.mpr hle
  have hnle : ¬ ((3000 : Int) ≤ t2) := not_le.mpr h3
  have hlt2 : t2 < 3000 := h3
  refine ⟨?_, ?_, ?_⟩
  · rw [observeTyping, hrun]
    simp [fireDueTimers, getTypingUsers, jsMapGet, hle, hnlt]
  · rw [observeTyping, hrun]
    simp [fireDueTimers, getTypingUsers, jsMapGet, hnle, hlt2]
  · decide

/-- Witness for C7 at `t1 = 3500`, `t2 = 2000`. -/
theorem typing_refresh_outlives_stale_timer_witness :
    ((3000 : Int) < 3500 ∧ (0 : Int) ≤ 2000 ∧ (2000 : Int) < 3000)
    ∧ (observeTyping [⟨0, "c", "u", true⟩] "c" 3500 = []
      ∧ observeTyping [⟨0, "c", "u", true⟩] "c" 2000
          = [{ userId := "u", conversationId := "c", isTyping := true, timestamp := 0 }]
      ∧ observeTyping [⟨0, "c", "u", true⟩, ⟨2000, "c", "u", true⟩] "c" 3500
          = [{ userId := "u", conversationId := "c", isTyping := true, timestamp := 2000 }]) :=
  ⟨⟨by decide, by decide, by decide⟩,
    typing_refresh_outlives_stale_timer 3500 2000 (by decide) (by decide) (by decide)⟩

/-! ## String pattern matching for the normalizer's regexes

The parsers in `messageParser.ts` / `conversationParser.ts` use a small
fixed set of regexes.  Each is modelled by a hand-rolled matcher over
`List Char` with the same semantics: scan left to right for the first
position where the pattern matches (`String.prototype.match` returns the
leftmost match).  All the regexes carry the `i` flag, so literals are
compared case-insensitively. -/

/-- The single-quote character, `'`. -/
def sqc : Char := Char.ofNat 39

/-- Membership in the regex character class `[a-f0-9]` with the `i`
flag, i.e. a hexadecimal digit. -/
def isHexDigitJs (c : Char) : Bool :=
  (decide ('0' ≤ c) && decide (c ≤ '9'))
    || (decide ('a' ≤ c) && decide (c ≤ 'f'))
    || (decide ('A' ≤ c) && decide (c ≤ 'F'))

/-- Membership in the regex class `\s` (the whitespace characters that
occur in the payloads at hand). -/
def isJsSpace (c : Char) : Bool :=
  c == ' ' || c == '\n' || c == '\t' || c == '\r'

/-- Match a literal case-insensitively at the start of `s`; on success
return the rest of `s`. -/
def matchLitCI : List Char → List Char → Option (List Char)
  | [], s => some s
  | _ :: _, [] => none
  | n :: ns, c :: cs => if n.toLower = c.toLower then matchLitCI ns cs else none

/-- Match `[a-f0-9]{24}` at the start of `s`; on success return the 24
captured characters and the rest. -/
def matchHex24 (s : List Char) : Option (List Char × List Char) :=
  let hex := s.take 24
  if hex.length = 24 && hex.all isHexDigitJs then some (hex, s.drop 24) else none

/-- The literal `ObjectId('`. -/
def litObjectIdOpen : List Char := "ObjectId(".data ++ [sqc]

/-- The literal `')`. -/
def litQuoteParen : List Char := [sqc, ')']

/-- The literal `_id:`. -/
def litIdColon : List Char := "_id:".data

/-- The literal `new ObjectId('`. -/
def litNewObjectIdOpen : List Char := "new ObjectId(".data ++ [sqc]

/-- The literal `name:`. -/
def litNameColon : List Char := "name:".data

/-- The literal `email:`. -/
def litEmailColon : List Char := "email:".data

/-- The literal `avatar:`. -/
def litAvatarColon : List Char := "avatar:".data

/-- The literal `ObjectId` (used case-sensitively by `String.includes`). -/
def litObjectIdWord : List Char := "ObjectId".data

/-- Try to match `/ObjectId\('([a-f0-9]{24})'\)/i` at the start of `s`,
returning the captured hex characters. -/
def matchObjectIdAt (s : List Char) : Option (List Char) :=
  match matchLitCI litObjectIdOpen s with
  | none => none
  | some r1 =>
      match matchHex24 r1 with
      | none => none
      | some (hex, r2) =>
          match matchLitCI litQuoteParen r2 with
          | none => none
          | some _ => some hex

/-- Try to match `/_id:\s*new ObjectId\('([a-f0-9]{24})'\)/i` at the
start of `s`, returning the captured hex characters. -/
def matchIdFieldAt (s : List Char) : Option (List Char) :=
  match matchLitCI litIdColon s with
  | none => none
  | some r1 =>
      match matchLitCI litNewObjectIdOpen (r1.dropWhile isJsSpace) with
      | none => none
      | some r2 =>
          match matchHex24 r2 with
          | none => none
          | some (hex, r3) =>
              match matchLitCI litQuoteParen r3 with
              | none => none
              | some _ => some hex

/-- Try to match `/<lit>\s*'([^']+)'/i` at the start of `s`, returning
the captured (non-empty) run of non-quote characters. -/
def matchQuotedFieldAt (lit : List Char) (s : List Char) : Option (List Char) :=
  match matchLitCI lit s with
  | none => none
  | some r1 =>
      match r1.dropWhile isJsSpace with
      | [] => none
      | c :: r2 =>
          if c = sqc then
            let captured := r2.takeWhile (fun d => d != sqc)
            if captured.length ≥ 1 then
              match r2.drop captured.length with
              | d :: _ => if d = sqc then some captured else none
              | [] => none
            else none
          else none

/-- Leftmost-match search: try the matcher at every position of `s`
from the left, as the regex engine does. -/
def searchFirst (f : List Char → Option (List Char)) : List Char → Option (List Char)
  | [] => f []
  | c :: cs =>
      match f (c :: cs) with
      | some r => some r
      | none => searchFirst f cs

/-- The anchored test `/^[a-f0-9]{24}$/i.test(s)`. -/
def regexTestHex24 (s : String) : Bool :=
  s.data.length = 24 && s.data.all isHexDigitJs

/-- `String.prototype.includes` (case-sensitive substring test). -/
def containsLit (needle : List Char) : List Char → Bool
  | [] => needle.isEmpty
  | c :: cs => needle.isPrefixOf (c :: cs) || containsLit needle cs

/-- `parseReplyToId(replyToString)` from `messageParser.ts`: a falsy
(absent or empty) input yields `null`; a plain 24-hex-character id is
returned as is; otherwise the first `ObjectId('<hex>')` occurrence is
captured; otherwise the first `_id: new ObjectId('<hex>')` occurrence;
otherwise `null`. -/
def parseReplyToId (replyToString : Option String) : Option String :=
  match replyToString with
  | none => none
  | some str =>
      if str = "" then none
      else if regexTestHex24 str then some str
      else
        match searchFirst matchObjectIdAt str.data with
        | some hex => some (String.mk hex)
        | none =>
            match searchFirst matchIdFieldAt str.data with
            | some hex => some (String.mk hex)
            | none => none

/-! ## The `IUser` projection produced by the conversation parsers -/

/-- `IUser` as produced at runtime by the parsers: `id` can be absent at
runtime (JS `undefined`) even though the TS type says `string`, so it is
an `Option`; the same holds for `name` in enrichment paths. -/
structure User where
  id : Option String
  name : Option String
  email : Option String
  avatarUrl : Option String
  isOnline : Bool
deriving DecidableEq, Repr

/-- `parseCreatedByUser(createdByString)` from `conversationParser.ts`:
extracts `_id`, `name`, `email`, `avatar` with the four field regexes
and yields a user when both id and name were found (`email`/`avatar`
fall back to `undefined`), otherwise `null`. -/
def parseCreatedByUser (createdByString : Option String) : Option User :=
  match createdByString with
  | none => none
  | some str =>
      if str = "" then none
      else
        let id := searchFirst matchIdFieldAt str.data
        let name := searchFirst (matchQuotedFieldAt litNameColon) str.data
        let email := searchFirst (matchQuotedFieldAt litEmailColon) str.data
        let avatar := searchFirst (matchQuotedFieldAt litAvatarColon) str.data
        match id, name with
        | some i, some n =>
            some { id := some (String.mk i), name := some (String.mk n),
                   email := email.map String.mk, avatarUrl := avatar.map String.mk,
                   isOnline := false }
        | _, _ => none

/-- The single-quote character as a one-character string. -/
def sqs : String := String.mk [sqc]

/-- The raw `replyTo` string of the spec's concrete example:
a MongoDB document `toString` with `_id`, `name` and `email` fields. -/
def c9input : String :=
  "\x7b\n _id: new ObjectId(" ++ sqs ++ "507f191e810c19729de860ea" ++ sqs
    ++ "),\n name: " ++ sqs ++ "Alice" ++ sqs
    ++ ",\n email: " ++ sqs ++ "a@x.com" ++ sqs ++ "\n\x7d"

/-- C9: on the spec's concrete raw `replyTo` document text, message
normalization extracts the reply id `507f191e810c19729de860ea` (via
`parseReplyToId`, whose `ObjectId('...')` case fires) and the name
`Alice` (via the document-text user parser `parseCreatedByUser`, whose
`name:` field regex captures it). -/
theorem replyTo_reference_extraction :
    parseReplyToId (some c9input) = some "507f191e810c19729de860ea"
    ∧ (parseCreatedByUser (some c9input)).map (fun u => (u.id, u.name)) =
        some (some "507f191e810c19729de860ea", some "Alice") := by
  constructor
  · decide
  · decide

/-! ## `parseParticipants` (the data for claim C10) -/

/-- A populated wire user object: every field may be absent, `_id` is
spelt with the underscore in the payloads. -/
structure RawUser where
  id : Option String := none
  _id : Option String := none
  name : Option String := none
  username : Option String := none
  email : Option String := none
  avatarUrl : Option String := none
  avatar : Option String := none
  isOnline : Option Bool := none
deriving DecidableEq, Repr

/-- One element of a wire `participants` array: a string (bare id or
serialized document text) or a populated object. -/
inductive RawParticipant where
  | pstr (s : String)
  | pobj (u : RawUser)
deriving DecidableEq, Repr

/-- The bare-id conversion of Case 1: placeholder name from the first 8
characters of the id (`userId.substring(0, 8) + '...'`). -/
def bareIdUser (userId : String) : User :=
  { id := some userId, name := some (userId.take 8 ++ "..."),
    email := some "", avatarUrl := some "", isOnline := false }

/-- The per-element parse of Case 2 (serialized MongoDB document text):
the four field regexes run inside a `try`; an element that yields no id
— or a non-string element, on which `.match` throws a `TypeError` that
the `catch` turns into `null` — is dropped by the following filter. -/
def parseDocParticipant : RawParticipant → Option User
  | .pobj _ => none
  | .pstr s =>
      let id := searchFirst matchIdFieldAt s.data
      let name := searchFirst (matchQuotedFieldAt litNameColon) s.data
      let email := searchFirst (matchQuotedFieldAt litEmailColon) s.data
      let avatar := searchFirst (matchQuotedFieldAt litAvatarColon) s.data
      match id with
      | none => none
      | some i =>
          some { id := some (String.mk i),
                 name := some ((name.map String.mk).getD "Unknown User"),
                 email := some ((email.map String.mk).getD ""),
                 avatarUrl := some ((avatar.map String.mk).getD ""),
                 isOnline := false }

/-- The per-element read of Case 3 (populated records): property access
on a string element does not throw in JS, it just yields `undefined`
for every field. -/
def populatedUser : RawParticipant → User
  | .pstr _ =>
      { id := none, name := some "Unknown", email := some "",
        avatarUrl := some "", isOnline := false }
  | .pobj u =>
      { id := jsOrStr u.id u._id,
        name := some (jsStrD u.name (jsStrD u.username "Unknown")),
        email := some (jsStrD u.email ""),
        avatarUrl := some (jsStrD u.avatarUrl (jsStrD u.avatar "")),
        isOnline := jsBoolD u.isOnline }

/-- The Case 1 map `participants.map((userId: string) => ...)`: calling
`.substring` on a non-string element throws a `TypeError` (there is no
`try` around this branch), modelled as `Except.error`. -/
def mapBareId : List RawParticipant → Except Unit (List User)
  | [] => .ok []
  | .pstr s :: rest => (mapBareId rest).map (fun us => bareIdUser s :: us)
  | .pobj _ :: _ => .error ()

/-- `parseParticipants(participants)` from `conversationParser.ts`
(the three-format version): the shape of the whole array is classified
from its first element alone — 24-hex string, string containing
`ObjectId`, object with a truthy `id` or `_id` — and every element is
then processed by that shape's converter; an unrecognized first element
yields the empty list. -/
def parseParticipants (participants : List RawParticipant) : Except Unit (List User) :=
  match participants with
  | [] => .ok []
  | first :: _ =>
      match first with
      | .pstr s =>
          if regexTestHex24 s then mapBareId participants
          else if containsLit litObjectIdWord s.data then
            .ok (participants.filterMap parseDocParticipant)
          else .ok []
      | .pobj u =>
          if jsTruthy u.id || jsTruthy u._id then
            .ok (participants.map populatedUser)
          else .ok []

/-- A concrete 24-hex-character id. -/
def hex24ex : String := "0123456789abcdef01234567"

/-- C10 counterexample: the uniform conversion claimed for the bare-id
case does not survive a mixed array.  With a hex-id first element and a
populated object second, `participants.map((userId: string) =>
userId.substring(0, 8) ...)` throws a `TypeError` on the object (no
element is converted), instead of converting every element. -/
theorem parseParticipants_mixed_throws_counterexample :
    parseParticipants [.pstr hex24ex, .pobj { id := some "u9" }] = .error ()
    ∧ parseParticipants [.pstr hex24ex] = .ok [bareIdUser hex24ex] := by
  constructor
  · rfl
  · rfl

theorem mapBareId_all_strings :
    ∀ ss : List String, mapBareId (ss.map RawParticipant.pstr) = .ok (ss.map bareIdUser) := by
  intro ss
  induction ss with
  | nil => rfl
  | cons s rest ih => simp [mapBareId, ih, Except.map]

/-- C10 amended: `parseParticipants` classifies the whole array by its
first element alone — bare 24-hex id, serialized document text (first
element contains `ObjectId`), populated object (truthy `id` or `_id`),
or unknown (empty result) — and processes every element with the chosen
converter; except that in the bare-id case the conversion is only total
on all-string arrays, because a non-string element makes the
`substring` call throw rather than being converted. -/
theorem parseParticipants_first_classifies
    (ss : List String) (s1 s2 s3 : String)
    (rest2 rest3 rest4 : List RawParticipant) (u1 u2 : RawUser)
    (h1 : regexTestHex24 s1 = true)
    (h2a : regexTestHex24 s2 = false)
    (h2b : containsLit litObjectIdWord s2.data = true)
    (h3 : (jsTruthy u1.id || jsTruthy u1._id) = true)
    (h4a : regexTestHex24 s3 = false)
    (h4b : containsLit litObjectIdWord s3.data = false)
    (h5 : (jsTruthy u2.id || jsTruthy u2._id) = false) :
    parseParticipants ((s1 :: ss).map RawParticipant.pstr)
      = .ok ((s1 :: ss).map bareIdUser)
    ∧ parseParticipants (.pstr s2 :: rest2)
      = .ok ((RawParticipant.pstr s2 :: rest2).filterMap parseDocParticipant)
    ∧ parseParticipants (.pobj u1 :: rest3)
      = .ok ((RawParticipant.pobj u1 :: rest3).map populatedUser)
    ∧ parseParticipants (.pstr s3 :: rest4) = .ok []
    ∧ parseParticipants (.pobj u2 :: rest4) = .ok [] := by
  refine ⟨?_, ?_, ?_, ?_, ?_⟩
  · simp only [List.map_cons, parseParticipants, h1, if_true]
    exact mapBareId_all_strings (s1 :: ss)
  · simp [parseParticipants, h2a, h2b]
  · simp [parseParticipants, h3]
  · simp [parseParticipants, h4a, h4b]
  · simp [parseParticipants, h5]

/-- Witness for C10's amended statement: each of the five shapes at a
concrete array. -/
theorem parseParticipants_first_classifies_witness :
    (regexTestHex24 hex24ex = true
      ∧ regexTestHex24 c9input = false
      ∧ containsLit litObjectIdWord c9input.data = true
      ∧ (jsTruthy (some "u9") || jsTruthy (none : Option String)) = true
      ∧ regexTestHex24 "hello" = false
      ∧ containsLit litObjectIdWord "hello".data = false
      ∧ (jsTruthy (none : Option String) || jsTruthy (none : Option String)) = false)
    ∧ (parseParticipants (([hex24ex, "u2"].map RawParticipant.pstr) :
          List RawParticipant)
        = .ok ([hex24ex, "u2"].map bareIdUser)
      ∧ parseParticipants (.pstr c9input :: [.pstr "junk"])
        = .ok ((RawParticipant.pstr c9input :: [.pstr "junk"]).filterMap parseDocParticipant)
      ∧ parseParticipants (.pobj { id := some "u9" } :: [.pstr "x"])
        = .ok ((RawParticipant.pobj { id := some "u9" } :: [.pstr "x"]).map populatedUser)
      ∧ parseParticipants (.pstr "hello" :: ([] : List RawParticipant)) = .ok []
      ∧ parseParticipants (.pobj {} :: ([] : List RawParticipant)) = .ok []) := by
  constructor
  · exact ⟨by decide, by decide, by decide, by decide, by decide, by decide, by decide⟩
  · have h := parseParticipants_first_classifies ["u2"] hex24ex c9input "hello"
      [.pstr "junk"] [.pstr "x"] [] { id := some "u9" } {}
      (by decide) (by decide) (by decide) (by decide) (by decide) (by decide) (by decide)
    exact h

/-! ## The socket message normalizer (`message.enum.ts`): claim C3 -/

/-- The record `parseSenderFromSocketMessage` returns.  `id` is an
`Option` because `sender.id || sender._id` is `undefined` when both
fields are missing. -/
structure ParsedSender where
  id : Option String
  name : String
  avatarUrl : String
  email : String
  isOnline : Bool
deriving DecidableEq, Repr

/-- The `sender` sub-record of a normalized `IMessage` (no `email`). -/
structure NSender where
  id : Option String
  name : String
  avatarUrl : String
  isOnline : Bool
deriving DecidableEq, Repr

/-- The fields of a normalized `IMessage`; the type parameter ties the
recursive `replyTo` knot. -/
structure NMsgData (α : Type) where
  id : Option String
  content : String
  contentText : String
  sender : NSender
  status : String
  role : String
  timestamp : Int
  type : String
  createdAt : Int
  updatedAt : Int
  fileUrl : Option String
  fileName : Option String
  isEdited : Bool
  isDeleted : Bool
  conversationId : Option String
  replyTo : Option α

/-- A normalized `IMessage` (recursive through `replyTo`). -/
inductive NMsg where
  | mk (data : NMsgData NMsg)

/-- Field access for `NMsg`. -/
def NMsg.data : NMsg → NMsgData NMsg
  | .mk d => d

/-- The fields of a raw socket message; the type parameter ties the
recursive `replyTo` / `replyToMessage` / `replyMessage` knot.  `sender`
is a union: a populated object or a bare string (which the object check
`typeof === 'object'` rejects). -/
structure RawMsgData (α : Type) where
  id : Option String := none
  _id : Option String := none
  content : Option String := none
  sender : Option (Sum String RawUser) := none
  senderId : Option String := none
  sender_id : Option String := none
  senderName : Option String := none
  senderAvatar : Option String := none
  status : Option String := none
  type : Option String := none
  createdAt : Option Int := none
  updatedAt : Option Int := none
  fileUrl : Option String := none
  fileName : Option String := none
  isEdited : Option Bool := none
  isDeleted : Option Bool := none
  conversationId : Option String := none
  replyTo : Option (Sum String α) := none
  replyToMessage : Option α := none
  replyMessage : Option α := none

/-- A raw socket message. -/
inductive RawMsg where
  | mk (data : RawMsgData RawMsg)

/-- Field access for `RawMsg`. -/
def RawMsg.data : RawMsg → RawMsgData RawMsg
  | .mk d => d

/-- `parseSenderFromSocketMessage(message)`: a populated `sender` object
wins; otherwise a truthy `senderId`/`sender_id` yields a minimal record
with the placeholder name `senderId.substring(0, 8) + '...'` (unless
`senderName` is present); otherwise the `unknown` fallback. -/
def parseSenderFromSocketMessage (m : RawMsg) : ParsedSender :=
  match m.data.sender with
  | some (Sum.inr s) =>
      { id := jsOrStr s.id s._id,
        name := jsStrD s.name (jsStrD s.username "Unknown"),
        avatarUrl := jsStrD s.avatarUrl (jsStrD s.avatar ""),
        email := jsStrD s.email "",
        isOnline := jsBoolD s.isOnline }
  | _ =>
      if jsTruthy m.data.senderId || jsTruthy m.data.sender_id then
        let senderId := (jsOrStr m.data.senderId m.data.sender_id).getD ""
        { id := some senderId,
          name := jsStrD m.data.senderName (senderId.take 8 ++ "..."),
          avatarUrl := jsStrD m.data.senderAvatar "",
          email := "", isOnline := false }
      else
        { id := some "unknown", name := "Unknown User", avatarUrl := "",
          email := "", isOnline := false }

/-- `normalizeSocketMessage(socketMessage, currentUserId)` from
`message.enum.ts`.  `now` stands for `Date.now()`.  The `role` field is
`'user'` when the resolved sender id equals a truthy `currentUserId`
and `'assistant'` otherwise; reply handling recurses into
`replyTo` (object form) or `replyToMessage`/`replyMessage`. -/
def normalizeSocketMessage : RawMsg → Option String → Int → NMsg
  | .mk ⟨idF, idUF, contentF, senderF, senderIdF, senderIdWF, senderNameF,
      senderAvatarF, statusF, typeF, createdAtF, updatedAtF, fileUrlF,
      fileNameF, isEditedF, isDeletedF, conversationIdF, replyToF,
      replyToMessageF, replyMessageF⟩, currentUserId, now =>
    let sender := parseSenderFromSocketMessage
      (.mk ⟨idF, idUF, contentF, senderF, senderIdF, senderIdWF, senderNameF,
        senderAvatarF, statusF, typeF, createdAtF, updatedAtF, fileUrlF,
        fileNameF, isEditedF, isDeletedF, conversationIdF, replyToF,
        replyToMessageF, replyMessageF⟩)
    let isFromCurrentUser : Bool :=
      match currentUserId with
      | some c => if c = "" then false else sender.id == some c
      | none => false
    let rtm : Option NMsg :=
      match replyToF, replyToMessageF, replyMessageF with
      | some (Sum.inl s), some a, some rm =>
          if s = "" then some (normalizeSocketMessage rm currentUserId now)
          else if (parseReplyToId (some s)).isSome then
            some (normalizeSocketMessage a currentUserId now)
          else none
      | some (Sum.inl s), some a, none =>
          if s = "" then none
          else if (parseReplyToId (some s)).isSome then
            some (normalizeSocketMessage a currentUserId now)
          else none
      | some (Sum.inl s), none, some rm =>
          if s = "" then some (normalizeSocketMessage rm currentUserId now)
          else if (parseReplyToId (some s)).isSome then
            some (normalizeSocketMessage rm currentUserId now)
          else none
      | some (Sum.inl _), none, none => none
      | some (Sum.inr r), _, _ => some (normalizeSocketMessage r currentUserId now)
      | none, _, some rm => some (normalizeSocketMessage rm currentUserId now)
      | none, _, none => none
    .mk { id := jsOrStr idF idUF,
          content := jsStrD contentF "",
          contentText := jsStrD contentF "",
          sender := { id := sender.id, name := sender.name,
                      avatarUrl := sender.avatarUrl, isOnline := sender.isOnline },
          status := jsStrD statusF "delivered",
          role := if isFromCurrentUser then "user" else "assistant",
          timestamp := jsDate createdAtF now,
          type := jsStrD typeF "text",
          createdAt := jsDate createdAtF now,
          updatedAt := jsDate updatedAtF (jsDate createdAtF now),
          fileUrl := fileUrlF,
          fileName := fileNameF,
          isEdited := jsBoolD isEditedF,
          isDeleted := jsBoolD isDeletedF,
          conversationId := conversationIdF,
          replyTo := rtm }

/-- The spec's concrete raw message: `{sender: {id: "u1"}, content: "hi"}`. -/
def c3raw : RawMsg :=
  .mk { sender := some (Sum.inr { id := some "u1" }), content := some "hi" }

/-- C3 counterexample: normalizing `{sender:{id:"u1"}, content:"hi"}`
with `currentUserId = "u1"` yields `role = "user"`, not `"self"`, and
with `currentUserId = "u2"` yields `role = "assistant"`, not `"other"`.
The comparison against the resolved sender id does happen, but the two
role values the code writes are `'user'`/`'assistant'`. -/
theorem normalize_role_values_counterexample :
    (normalizeSocketMessage c3raw (some "u1") 0).data.role = "user"
    ∧ ¬ (normalizeSocketMessage c3raw (some "u1") 0).data.role = "self"
    ∧ (normalizeSocketMessage c3raw (some "u2") 0).data.role = "assistant"
    ∧ ¬ (normalizeSocketMessage c3raw (some "u2") 0).data.role = "other" := by
  refine ⟨rfl, by decide, rfl, by decide⟩

/-- C3 amended: for every raw message whose sender resolves to a
non-empty id `s`, normalization with `currentUserId = s` yields
`role = "user"`, and with any other `currentUserId = c` yields
`role = "assistant"` (the spec's "self"/"other" distinction, under the
role values the code actually writes). -/
theorem normalizeSocketMessage_role (raw : RawMsg) (now : Int) (s c : String)
    (hs : (parseSenderFromSocketMessage raw).id = some s) (hsne : s ≠ "")
    (hcs : c ≠ s) :
    (normalizeSocketMessage raw (some s) now).data.role = "user"
    ∧ (normalizeSocketMessage raw (some c) now).data.role = "assistant" := by
  obtain ⟨⟨idF, idUF, contentF, senderF, senderIdF, senderIdWF, senderNameF,
    senderAvatarF, statusF, typeF, createdAtF, updatedAtF, fileUrlF,
    fileNameF, isEditedF, isDeletedF, conversationIdF, replyToF,
    replyToMessageF, replyMessageF⟩⟩ := raw
  constructor
  · rcases replyToF with _ | ⟨s2 | r⟩ <;>
      rcases replyToMessageF with _ | a <;>
      rcases replyMessageF with _ | rm <;>
      simp [normalizeSocketMessage, NMsg.data, hs, hsne]
  · by_cases hc : c = ""
    · rcases replyToF with _ | ⟨s2 | r⟩ <;>
        rcases replyToMessageF with _ | a <;>
        rcases replyMessageF with _ | rm <;>
        simp [normalizeSocketMessage, NMsg.data, hc]
    · rcases replyToF with _ | ⟨s2 | r⟩ <;>
        rcases replyToMessageF with _ | a <;>
        rcases replyMessageF with _ | rm <;>
        simp [normalizeSocketMessage, NMsg.data, hs, hc, Ne.symm hcs]

/-- Witness for C3's amended statement at the spec's concrete message. -/
theorem normalizeSocketMessage_role_witness :
    ((parseSenderFromSocketMessage c3raw).id = some "u1"
      ∧ "u1" ≠ "" ∧ "u2" ≠ "u1")
    ∧ ((normalizeSocketMessage c3raw (some "u1") 0).data.role = "user"
      ∧ (normalizeSocketMessage c3raw (some "u2") 0).data.role = "assistant") :=
  ⟨⟨by decide, by decide, by decide⟩,
    normalizeSocketMessage_role c3raw 0 "u1" "u2" (by decide) (by decide) (by decide)⟩

/-! ## Private-conversation participant enrichment (`useConversation`):
the data for claim C5 -/

/-- The `lastMessage.sender` record as read by the enrichment step. -/
structure LastMsgSender where
  id : Option String := none
  name : Option String := none
  email : Option String := none
  avatar : Option String := none
deriving DecidableEq, Repr

/-- A user record in the `userCache` map. -/
structure CachedUser where
  name : Option String := none
  username : Option String := none
  email : Option String := none
  avatarUrl : Option String := none
  avatar : Option String := none
  isOnline : Option Bool := none
deriving DecidableEq, Repr

/-- The placeholder created for a wire participant id:
`{id, name: id.substring(0, 8) + '...', email: '', avatarUrl: '', isOnline: false}`. -/
def placeholderUser (id : String) : User :=
  { id := some id, name := some (id.take 8 ++ "..."),
    email := some "", avatarUrl := some "", isOnline := false }

/-- Step 1 of the enrichment: `conv.participants.forEach((id) => ...)` —
insert a placeholder for each wire id not already in the map. -/
def addWireId (m : List (String × User)) (id : String) : List (String × User) :=
  if jsMapHas m id then m else jsMapSet m id (placeholderUser id)

/-- Step 4 of the enrichment: overwrite from `userCache` where present,
falling back per field to the entry already in the map. -/
def enrichFromCache (cache : List (String × CachedUser))
    (m : List (String × User)) (id : String) : List (String × User) :=
  match jsMapGet cache id with
  | some cu =>
      jsMapSet m id
        { id := some id,
          name := jsOrStr cu.name (jsOrStr cu.username ((jsMapGet m id).bind User.name)),
          email := some (jsStrD cu.email (jsStrD ((jsMapGet m id).bind User.email) "")),
          avatarUrl := some (jsStrD cu.avatarUrl (jsStrD cu.avatar
            (jsStrD ((jsMapGet m id).bind User.avatarUrl) ""))),
          isOnline := jsBoolD cu.isOnline }
  | none => m

/-- The `conv.type === 'private'` enrichment branch of
`getConversations` in `useConversation.ts`: a map keyed by participant
id is seeded with a placeholder per wire id, overwritten by the
`lastMessage.sender` record when its id is truthy, extended by the
parsed `createdBy` user when its id is new, then overwritten from the
`userCache`; the map's values (in insertion order) are the resulting
participants.  No step consults the current user's id. -/
def enrichPrivateParticipants (wireIds : List String)
    (lastMsgSender : Option LastMsgSender) (createdByUser : Option User)
    (cache : List (String × CachedUser)) : List User :=
  let m0 := wireIds.foldl addWireId []
  let m1 :=
    match lastMsgSender with
    | some sdr =>
        if jsTruthy sdr.id then
          jsMapSet m0 (sdr.id.getD "")
            { id := sdr.id, name := sdr.name,
              email := some (jsStrD sdr.email ""),
              avatarUrl := some (jsStrD sdr.avatar ""), isOnline := false }
        else m0
    | none => m0
  let m2 :=
    match createdByUser with
    | some u => if jsMapHas m1 (u.id.getD "") then m1 else jsMapSet m1 (u.id.getD "") u
    | none => m1
  let m3 := wireIds.foldl (enrichFromCache cache) m2
  m3.map Prod.snd

/-- The participants mapping of `normalizeSocketConversation` in
`message.enum.ts`: a string participant becomes a placeholder record, an
object participant is projected field-by-field; an empty (or absent)
array yields no participants.  The current user is never added. -/
def normalizeSocketConversationParticipants (ps : List (Sum String RawUser)) : List User :=
  if ps.length = 0 then []
  else ps.map (fun p =>
    match p with
    | Sum.inl s =>
        { id := some s, name := some (s.take 8 ++ "..."),
          email := some "", avatarUrl := some "", isOnline := false }
    | Sum.inr u =>
        { id := jsOrStr u.id u._id,
          name := some (jsStrD u.name (jsStrD u.username "Unknown")),
          email := some (jsStrD u.email ""),
          avatarUrl := some (jsStrD u.avatarUrl (jsStrD u.avatar "")),
          isOnline := jsBoolD u.isOnline })

/-- C5 counterexample: a private conversation arriving with participant
ids `["u1"]` while the current user is `"u2"` does not normalize to the
two endpoints.  With no lastMessage, no createdBy and an empty cache,
the enrichment produces exactly one participant, `u1`; the current
user's id is not an input of either normalization path, so `u2` cannot
appear. -/
theorem private_participants_one_sided_counterexample :
    (enrichPrivateParticipants ["u1"] none none []).map User.id = [some "u1"]
    ∧ (enrichPrivateParticipants ["u1"] none none []).length = 1
    ∧ ¬ some "u2" ∈ (enrichPrivateParticipants ["u1"] none none []).map User.id
    ∧ (normalizeSocketConversationParticipants [Sum.inl "u1"]).map User.id = [some "u1"] := by
  refine ⟨by decide, by decide, by decide, by decide⟩

theorem jsMapGet_append_singleton (acc : List (String × α)) (k id : String) (v : α)
    (h : jsMapGet acc id = none) :
    jsMapGet (acc ++ [(k, v)]) id = if k = id then some v else none := by
  induction acc with
  | nil => simp [jsMapGet]
  | cons kv rest ih =>
      obtain ⟨k2, v2⟩ := kv
      simp only [jsMapGet] at h
      by_cases hk : k2 = id
      · rw [if_pos hk] at h; exact absurd h (by simp)
      · rw [if_neg hk] at h
        simp only [List.cons_append, jsMapGet, if_neg hk]
        exact ih h

theorem foldl_addWireId_fresh :
    ∀ (ids : List String) (acc : List (String × User)),
      ids.Nodup → (∀ id ∈ ids, jsMapGet acc id = none) →
      ids.foldl addWireId acc = acc ++ ids.map (fun id => (id, placeholderUser id)) := by
  intro ids
  induction ids with
  | nil => intro acc _ _; simp
  | cons i rest ih =>
      intro acc hnd hfresh
      have hi : jsMapGet acc i = none := hfresh i (List.mem_cons_self i rest)
      have hstep : addWireId acc i = acc ++ [(i, placeholderUser i)] := by
        unfold addWireId jsMapHas
        rw [hi]
        simp [jsMapSet_absent acc i _ hi]
      have hfresh2 : ∀ id ∈ rest, jsMapGet (acc ++ [(i, placeholderUser i)]) id = none := by
        intro id hid
        have hne : i ≠ id := by
          rintro rfl
          exact (List.nodup_cons.mp hnd).1 hid
        rw [jsMapGet_append_singleton acc i id _ (hfresh id (List.mem_cons_of_mem _ hid))]
        exact if_neg hne
      rw [List.foldl_cons, hstep,
        ih (acc ++ [(i, placeholderUser i)]) (List.nodup_cons.mp hnd).2 hfresh2]
      simp

theorem foldl_enrichFromCache_empty :
    ∀ (ids : List String) (m : List (String × User)),
      ids.foldl (enrichFromCache []) m = m := by
  intro ids
  induction ids with
  | nil => intro m; rfl
  | cons i rest ih =>
      intro m
      rw [List.foldl_cons]
      exact ih m

/-- C5 amended: for `type = private`, the participants are exactly the
wire-revealed ids as placeholder records, possibly enriched or extended
by the `lastMessage` sender, the parsed `createdBy` user and the user
cache — the current user is never synthesized into the list.  In
particular, with only the wire ids available (no last message, no
createdBy, empty cache) the result is precisely one placeholder per
distinct wire id, so a one-sided payload stays one-sided. -/
theorem enrichPrivateParticipants_wire_only (wireIds : List String)
    (h : wireIds.Nodup) :
    enrichPrivateParticipants wireIds none none []
      = wireIds.map placeholderUser := by
  show List.map Prod.snd
      (wireIds.foldl (enrichFromCache []) (wireIds.foldl addWireId []))
    = wireIds.map placeholderUser
  rw [foldl_enrichFromCache_empty,
    foldl_addWireId_fresh wireIds [] h (fun id _ => rfl)]
  simp [List.map_map, Function.comp]

/-- Witness for C5's amended statement at the spec's one-sided payload. -/
theorem enrichPrivateParticipants_wire_only_witness :
    (["u1"].Nodup)
    ∧ enrichPrivateParticipants ["u1"] none none [] = ["u1"].map placeholderUser :=
  ⟨by decide, enrichPrivateParticipants_wire_only ["u1"] (by decide)⟩
